import Mathlib

/-!
Verification development for `news_sensing_system.py`, a single-file
compliance-news sensing pipeline.  The Python source is shallowly embedded:
pure functions become Lean functions, the mutable `processed` set becomes
explicit state passing over `Finset String`, exceptions of collaborators
become `Except`, and the filesystem-backed identifier file becomes an
`Option (List String)` (missing file, or the list of written lines).
Python string primitives used by the source (`str.lower`, `str.strip`,
substring `in`, `str.split`, `str.startswith`, `"\n".join`, code-point
string comparison) are embedded as executable functions over `List Char`.
-/

/-! ## Python string primitives -/

/-- Whitespace characters removed by Python `str.strip()` (ASCII subset,
which covers everything the program ever strips). -/
def isPySpace (c : Char) : Bool :=
  c == ' ' || c == '\t' || c == '\n' || c == '\r' || c == '\x0b' || c == '\x0c'

/-- Lower-casing of one character as done by Python `str.lower()` on the
alphabets appearing in this program (ASCII letters; Hangul has no case). -/
def pyCharLower (c : Char) : Char :=
  if 65 ≤ c.toNat && c.toNat ≤ 90 then Char.ofNat (c.toNat + 32) else c

/-- Python `str.lower()`. -/
def pyLower (s : String) : String := String.mk (s.data.map pyCharLower)

/-- Strip leading and trailing whitespace from a character list
(Python `str.strip()` on `List Char`). -/
def stripList (l : List Char) : List Char :=
  ((l.dropWhile isPySpace).reverse.dropWhile isPySpace).reverse

/-- Python `str.strip()`. -/
def pyStrip (s : String) : String := String.mk (stripList s.data)

/-- Boolean list-prefix test. -/
def listIsPre : List Char → List Char → Bool
  | [], _ => true
  | _ :: _, [] => false
  | a :: as, b :: bs => a == b && listIsPre as bs

/-- All suffixes of a list, longest first. -/
def listTails : List Char → List (List Char)
  | [] => [[]]
  | a :: t => (a :: t) :: listTails t

/-- Python substring containment: `pat in s`. -/
def strContains (s pat : String) : Bool :=
  (listTails s.data).any (fun t => listIsPre pat.data t)

/-- Python `sep.join(parts)`. -/
def pyJoin (sep : String) : List String → String
  | [] => ""
  | [x] => x
  | x :: y :: t => x ++ sep ++ pyJoin sep (y :: t)

/-- Split a character list on a separator character. -/
def splitOnChar (sep : Char) : List Char → List (List Char)
  | [] => [[]]
  | c :: rest =>
    match splitOnChar sep rest with
    | [] => [[]]
    | h :: t => if c == sep then [] :: h :: t else (c :: h) :: t

/-- Python `s.split(",")` (with explicit separator: `"".split(",") = [""]`). -/
def pySplitComma (s : String) : List String :=
  (splitOnChar ',' s.data).map String.mk

/-- Python `s.startswith(pre)`. -/
def strStartsWith (s pre : String) : Bool := listIsPre pre.data s.data

/-- Lexicographic code-point comparison of character lists, as Python
compares strings. -/
def listLE : List Char → List Char → Bool
  | [], _ => true
  | _ :: _, [] => false
  | a :: as, b :: bs =>
    if a.toNat < b.toNat then true
    else if b.toNat < a.toNat then false
    else listLE as bs

/-- Python string `<=` (code-point lexicographic). -/
def strLE (s t : String) : Bool := listLE s.data t.data

/-- The Prop form of the embedded Python string order, used to sort. -/
def strLEP (a b : String) : Prop := strLE a b = true

instance : DecidableRel strLEP := fun a b =>
  inferInstanceAs (Decidable (strLE a b = true))

instance : IsTrans String strLEP :=
  ⟨fun a b c => by
    show listLE a.data b.data = true → listLE b.data c.data = true →
      listLE a.data c.data = true
    generalize a.data = x
    generalize b.data = y
    generalize c.data = z
    induction x generalizing y z with
    | nil => intro _ _; simp [listLE]
    | cons xc xs ih =>
      intro hab hbc
      cases y with
      | nil => simp [listLE] at hab
      | cons yc ys =>
        cases z with
        | nil => simp [listLE] at hbc
        | cons zc zs =>
          simp only [listLE] at hab hbc ⊢
          by_cases hxy : xc.toNat < yc.toNat
          · by_cases hyz : yc.toNat < zc.toNat
            · simp [Nat.lt_trans hxy hyz]
            · simp only [hyz, if_false] at hbc
              by_cases hzy : zc.toNat < yc.toNat
              · simp [hzy, if_true] at hbc
              · have h : yc.toNat = zc.toNat := Nat.le_antisymm
                  (Nat.le_of_not_lt hzy) (Nat.le_of_not_lt hyz)
                simp [h ▸ hxy]
          · simp only [hxy, if_false] at hab
            by_cases hyx : yc.toNat < xc.toNat
            · simp [hyx] at hab
            · have hxyn : xc.toNat = yc.toNat := Nat.le_antisymm
                (Nat.le_of_not_lt hyx) (Nat.le_of_not_lt hxy)
              simp only [hyx, if_false] at hab
              by_cases hyz : yc.toNat < zc.toNat
              · simp [hxyn ▸ hyz]
              · simp only [hyz, if_false] at hbc
                by_cases hzy : zc.toNat < yc.toNat
                · simp [hzy] at hbc
                · simp only [hzy, if_false] at hbc
                  have hxz : ¬ xc.toNat < zc.toNat := by omega
                  have hzx : ¬ zc.toNat < xc.toNat := by omega
                  simp [hxz, hzx, ih ys zs hab hbc]⟩

instance : IsTotal String strLEP :=
  ⟨fun a b => by
    show listLE a.data b.data = true ∨ listLE b.data a.data = true
    generalize a.data = x
    generalize b.data = y
    induction x generalizing y with
    | nil => left; simp [listLE]
    | cons xc xs ih =>
      cases y with
      | nil => right; simp [listLE]
      | cons yc ys =>
        simp only [listLE]
        by_cases hxy : xc.toNat < yc.toNat
        · left; simp [hxy]
        · by_cases hyx : yc.toNat < xc.toNat
          · right; simp [hyx]
          · simpa [hxy, hyx] using ih ys⟩

instance : IsAntisymm String strLEP :=
  ⟨fun a b hab hba => by
    have h : a.data = b.data := by
      revert hab hba
      show listLE a.data b.data = true → listLE b.data a.data = true →
        a.data = b.data
      generalize a.data = x
      generalize b.data = y
      induction x generalizing y with
      | nil =>
        intro _ hba
        cases y with
        | nil => rfl
        | cons yc ys => simp [listLE] at hba
      | cons xc xs ih =>
        intro hab hba
        cases y with
        | nil => simp [listLE] at hab
        | cons yc ys =>
          simp only [listLE] at hab hba
          by_cases hxy : xc.toNat < yc.toNat
          · have hyx : ¬ yc.toNat < xc.toNat := by omega
            simp [hyx, Nat.lt_irrefl, hxy] at hba
          · by_cases hyx : yc.toNat < xc.toNat
            · simp [hxy, hyx] at hab
            · have hc : xc = yc := Char.ext (UInt32.ext (Nat.le_antisymm
                (Nat.le_of_not_lt hyx) (Nat.le_of_not_lt hxy)))
              simp only [hxy, hyx, if_false] at hab hba
              rw [hc, ih ys hab hba]
    cases a; cases b; exact congrArg String.mk h⟩

/-- Truthiness of an optional string in Python: `None` and `""` are falsy. -/
def optTruthy : Option String → Bool
  | none => false
  | some s => s ≠ ""

/-- Python `a or b` on optional strings: `a` when truthy, else `b`. -/
def pyOrStr (a b : Option String) : Option String :=
  if optTruthy a then a else b

/-! ## Configuration data of the program -/

/-- The Korean keyword list `KEYWORDS_KO`. -/
def KEYWORDS_KO : List String :=
  ["독점규제및공정거래에관한법률",
   "공정거래법",
   "상법",
   "노동법",
   "노조법",
   "근로기준법",
   "노랑봉투법",
   "중대재해재법",
   "대리점법",
   "하도급법",
   "정보보호법"]

/-- The English keyword list `KEYWORDS_EN`. -/
def KEYWORDS_EN : List String :=
  ["FCPA", "GDPR", "U.S. visas", "US visas", "immigration", "tariffs"]

/-- `article_matches(text)`: lower-case the text, then test each Korean
keyword and each English keyword (lower-cased) for substring containment. -/
def article_matches (text : String) : Bool :=
  let lower_text := pyLower text
  KEYWORDS_KO.any (fun kw => strContains lower_text (pyLower kw)) ||
  KEYWORDS_EN.any (fun kw => strContains lower_text (pyLower kw))

/-! ## Data model -/

/-- One feed entry as exposed by the feed-parsing collaborator: every field
optional (`entry.get` returns `None` when absent). -/
structure FeedEntry where
  id : Option String := none
  guid : Option String := none
  link : Option String := none
  title : Option String := none
  summary : Option String := none
  description : Option String := none
  published : Option String := none
deriving DecidableEq, Repr

/-- One feed definition from `FEEDS`: `{name, url, language}`. -/
structure FeedConfig where
  name : String
  url : String
  language : String
deriving DecidableEq, Repr

/-- One result dictionary as appended by `fetch_feed` /
`fetch_moleg_public_data`. -/
structure Article where
  id : String
  source : String
  title : String
  summary : String
  translation : String
  link : String
  published : String
deriving DecidableEq, Repr

/-- The translation collaborator: `translator.translate(text, dest="ko").text`,
which either returns the translated text or raises (carrying the exception's
string rendering). -/
abbrev Translator := String → Except String String

/-! ## Feed adapter (`fetch_feed`) -/

/-- `entry.get("id") or entry.get("guid") or entry.get("link")`. -/
def entryIdentifier (e : FeedEntry) : Option String :=
  pyOrStr (pyOrStr e.id e.guid) e.link

/-- `entry.get("title", "")`. -/
def entryTitle (e : FeedEntry) : String := e.title.getD ""

/-- `entry.get("summary", entry.get("description", ""))`. -/
def entrySummary (e : FeedEntry) : String :=
  match e.summary with
  | some s => s
  | none => e.description.getD ""

/-- `combined = f"{title}\n{summary}"`. -/
def combinedText (e : FeedEntry) : String :=
  entryTitle e ++ "\n" ++ entrySummary e

/-- The placeholder produced when translation raises:
`f"(번역 오류: {exc})"`. -/
def translationPlaceholder (exc : String) : String :=
  "(번역 오류: " ++ exc ++ ")"

/-- The translated text for one entry: skip translation for Korean feeds,
otherwise call the translator and contain its failure as a placeholder. -/
def entryTranslation (feed : FeedConfig) (translator : Translator)
    (combined : String) : String :=
  if feed.language ≠ "ko" then
    match translator combined with
    | .ok t => t
    | .error exc => translationPlaceholder exc
  else combined

/-- The loop body of `fetch_feed` for one entry: state is the `processed`
set together with the `results` accumulated so far. -/
def processEntry (feed : FeedConfig) (translator : Translator)
    (st : Finset String × List Article) (e : FeedEntry) :
    Finset String × List Article :=
  match entryIdentifier e with
  | none => st
  | some ident =>
    if ident = "" then st
    else if ident ∈ st.1 then st
    else if article_matches (combinedText e) then
      (insert ident st.1,
       st.2 ++ [{ id := ident
                  source := feed.name
                  title := pyStrip (entryTitle e)
                  summary := pyStrip (entrySummary e)
                  translation := pyStrip (entryTranslation feed translator
                    (combinedText e))
                  link := e.link.getD ""
                  published := e.published.getD "" }])
    else st

/-- `fetch_feed(feed, processed, translator)` run over the parsed entries:
returns the updated `processed` set and the list of matched articles. -/
def fetch_feed (feed : FeedConfig) (translator : Translator)
    (entries : List FeedEntry) (processed : Finset String) :
    Finset String × List Article :=
  entries.foldl (processEntry feed translator) (processed, [])

/-! ## Scrape adapter (`fetch_moleg_public_data`) -/

/-- One `(title, href)` pair extracted from the MOLEG page
(`link.get_text(strip=True)` and `link.get("href")`). -/
structure MolegItem where
  title : String
  href : Option String := none
deriving DecidableEq, Repr

/-- Absolute-URL normalization of a root-relative href. -/
def molegFullLink (href : String) : String :=
  if strStartsWith href "/" then "https://www.moleg.go.kr" ++ href else href

/-- The MOLEG keyword filter: `any(kw in title for kw in KEYWORDS_KO)` —
case-sensitive containment, Korean list only. -/
def molegMatches (title : String) : Bool :=
  KEYWORDS_KO.any (fun kw => strContains title kw)

/-- The loop body of `fetch_moleg_public_data` for one scraped list item. -/
def molegStep (st : Finset String × List Article) (it : MolegItem) :
    Finset String × List Article :=
  match it.href with
  | none => st
  | some href =>
    if href = "" then st
    else if molegFullLink href ∈ st.1 then st
    else if molegMatches it.title then
      (insert (molegFullLink href) st.1,
       st.2 ++ [{ id := molegFullLink href
                  source := "법제처 공공데이터"
                  title := it.title
                  summary := it.title
                  translation := it.title
                  link := molegFullLink href
                  published := "" }])
    else st

/-- `fetch_moleg_public_data(processed)` on the successfully scraped list
items: returns the updated `processed` set and the matched articles. -/
def fetch_moleg_public_data (items : List MolegItem)
    (processed : Finset String) : Finset String × List Article :=
  items.foldl molegStep (processed, [])

/-! ## Identifier store (`load_processed` / `save_processed`) -/

/-- `load_processed()`: a missing file yields the empty set, otherwise each
line is stripped and added to the set. -/
def load_processed (file : Option (List String)) : Finset String :=
  match file with
  | none => ∅
  | some lines => (lines.map pyStrip).toFinset

/-- `save_processed(processed)`: the lines written, one identifier per line,
in `sorted(processed)` order. -/
def save_processed (processed : Finset String) : List String :=
  processed.sort strLEP

/-! ## Digest assembly (`build_digest`) -/

/-- `"".rjust(60, "−")`: sixty U+2212 minus signs. -/
def digestRule : String := String.mk (List.replicate 60 '−')

/-- The numbered header line of one digest block:
`f"{idx}. [{item['source']}] {item['title']}"`. -/
def digestBlockHeader (idx : Nat) (item : Article) : String :=
  toString idx ++ ". [" ++ item.source ++ "] " ++ item.title

/-- The numbered blocks of lines for the articles, starting at index `idx`
(`enumerate(entries, 1)` supplies 1 for the first). -/
def digestBlocks : Nat → List Article → List String
  | _, [] => []
  | idx, item :: rest =>
    ([digestBlockHeader idx item] ++
     (if item.published ≠ "" then ["   발행일: " ++ item.published] else []) ++
     ["   원문 요약: " ++ item.summary] ++
     (if item.translation ≠ "" ∧ item.translation ≠ item.summary then
        ["   한국어 번역: " ++ item.translation] else []) ++
     (if item.link ≠ "" then ["   링크: " ++ item.link] else []) ++
     [""]) ++ digestBlocks (idx + 1) rest

/-- All lines of the digest: header, rule, then the numbered blocks. -/
def digestLines (timestamp : String) (entries : List Article) : List String :=
  ["규제 준수 뉴스 요약 – " ++ timestamp ++ " (Asia/Seoul 기준)", digestRule] ++
  digestBlocks 1 entries

/-- `build_digest(entries)`, with `datetime.now()` passed explicitly. -/
def build_digest (timestamp : String) (entries : List Article) : String :=
  pyJoin "\n" (digestLines timestamp entries)

/-! ## Mail configuration check (`send_email`) -/

/-- The environment variables consulted by `send_email` (the port is read
too but plays no role in the configuration check). -/
structure SmtpEnv where
  SMTP_HOST : Option String := none
  SMTP_USER : Option String := none
  SMTP_PASSWORD : Option String := none
  EMAIL_TO : Option String := none
deriving DecidableEq, Repr

/-- `recipients = os.environ.get("EMAIL_TO", "").split(",")`. -/
def emailRecipients (env : SmtpEnv) : List String :=
  pySplitComma (env.EMAIL_TO.getD "")

/-- Whether `send_email` raises its `RuntimeError` before any transport:
`not (smtp_host and smtp_user and smtp_pass and recipients)` under Python
truthiness (a list is truthy iff non-empty). -/
def sendEmailConfigError (env : SmtpEnv) : Bool :=
  !(optTruthy env.SMTP_HOST && optTruthy env.SMTP_USER &&
    optTruthy env.SMTP_PASSWORD && !(emailRecipients env).isEmpty)

/-! ## Run orchestrator (`run_once`) -/

/-- Observable effects of one run, in order of occurrence. -/
inductive Event where
  | persist (lines : List String)
  | dispatch (subject body : String)
deriving DecidableEq, Repr

def Event.isPersist : Event → Bool
  | .persist _ => true
  | .dispatch _ _ => false

def Event.isDispatch : Event → Bool
  | .persist _ => false
  | .dispatch _ _ => true

/-- All collaborator outcomes one invocation of `run_once` can observe:
per-feed parse outcomes (an `Except.error` is the feed raising, caught by
the per-feed `try`), the MOLEG scrape outcome (its internal `try` makes a
failure contribute nothing), the translator, and the identifier file. -/
structure RunInput where
  feeds : List (FeedConfig × Except String (List FeedEntry))
  translator : Translator
  moleg : Except String (List MolegItem)
  file : Option (List String)

/-- The per-feed loop of `run_once`: a raising feed is caught and
contributes nothing; a parsed feed is handed to `fetch_feed`. -/
def fetchAllFeeds (feeds : List (FeedConfig × Except String (List FeedEntry)))
    (translator : Translator) (st : Finset String × List Article) :
    Finset String × List Article :=
  feeds.foldl
    (fun st fr =>
      match fr.2 with
      | .error _ => st
      | .ok entries =>
        let r := fetch_feed fr.1 translator entries st.1
        (r.1, st.2 ++ r.2))
    st

/-- State (processed set, accumulated `all_entries`) after all feeds and
the MOLEG scrape. -/
def runGather (inp : RunInput) : Finset String × List Article :=
  let st := fetchAllFeeds inp.feeds inp.translator (load_processed inp.file, [])
  match inp.moleg with
  | .error _ => st
  | .ok items =>
    let r := fetch_moleg_public_data items st.1
    (r.1, st.2 ++ r.2)

/-- The `all_entries` list accumulated by `run_once` before sorting. -/
def runAllEntries (inp : RunInput) : List Article := (runGather inp).2

/-- The processed set at the moment `save_processed` is called. -/
def runFinalProcessed (inp : RunInput) : Finset String := (runGather inp).1

/-- Descending comparison on the raw `published` string (ties keep list
order under a stable sort, as in Python). -/
def pubGE (a b : Article) : Prop := strLE b.published a.published = true

instance : DecidableRel pubGE := fun a b =>
  inferInstanceAs (Decidable (strLE b.published a.published = true))

instance : IsTotal Article pubGE :=
  ⟨fun a b => total_of strLEP b.published a.published⟩

instance : IsTrans Article pubGE :=
  ⟨fun a b c hab hbc =>
    trans_of strLEP (hbc : strLEP c.published b.published)
      (hab : strLEP b.published a.published)⟩

/-- `all_entries.sort(key=lambda x: x.get("published",""), reverse=True)`:
Python's sort is stable, so its output is the unique stable descending
ordering; insertion sort with the non-strict descending comparison computes
exactly that ordering. -/
def runSortedEntries (inp : RunInput) : List Article :=
  List.insertionSort pubGE (runAllEntries inp)

/-- The fixed subject line of the digest mail. -/
def digestSubject : String := "[Compliance Digest] 신규 규제 소식 / 법률 변경 알림"

/-- The observable event trace of `run_once`: persist the store, then
dispatch the digest only when `all_entries` is non-empty. -/
def runEvents (inp : RunInput) (timestamp : String) : List Event :=
  [Event.persist (save_processed (runFinalProcessed inp))] ++
  (if runAllEntries inp = [] then []
   else [Event.dispatch digestSubject
          (build_digest timestamp (runSortedEntries inp))])

/-! ## Concrete inputs used by the witnesses -/

def wInputC3 : RunInput :=
  ⟨[(⟨"F", "u", "ko"⟩, Except.ok [{ id := some "i1", title := some "공정거래법" }])],
   fun t => Except.ok t, Except.error "m", none⟩

def wInputC9 : RunInput :=
  ⟨[(⟨"F", "u", "en"⟩, Except.ok
      [{ id := some "i1", title := some "GDPR a" },
       { id := some "i2", title := some "GDPR b" }])],
   fun t => Except.ok t, Except.error "m", none⟩

def wFeedOkC6 : FeedConfig × Except String (List FeedEntry) :=
  (⟨"A", "u", "en"⟩, Except.ok
    [{ id := some "a1", title := some "GDPR fine", published := some "2025-01-01" }])

def wInputC6 : RunInput :=
  ⟨[wFeedOkC6, (⟨"B", "u", "en"⟩, Except.error "boom")],
   fun t => Except.ok ("T " ++ t),
   Except.ok [⟨"공정거래법 공고", some "/x"⟩], none⟩

def wArtC6 : Article :=
  ⟨"https://www.moleg.go.kr/x", "법제처 공공데이터", "공정거래법 공고",
   "공정거래법 공고", "공정거래법 공고", "https://www.moleg.go.kr/x", ""⟩

/-! ## Supporting lemmas: strings and containment -/

theorem strData_append (a b : String) : (a ++ b).data = a.data ++ b.data := by
  cases a; cases b; rfl

theorem listIsPre_iff (p l : List Char) :
    listIsPre p l = true ↔ ∃ t, l = p ++ t := by
  induction p generalizing l with
  | nil => simp [listIsPre]
  | cons a as ih =>
    cases l with
    | nil =>
      simp only [listIsPre, List.cons_append]
      constructor
      · intro h; exact absurd h (by simp)
      · rintro ⟨t, ht⟩; exact absurd ht (by simp)
    | cons b bs =>
      simp only [listIsPre, Bool.and_eq_true, beq_iff_eq, ih, List.cons_append]
      constructor
      · rintro ⟨hab, t, ht⟩
        exact ⟨t, by rw [hab, ht]⟩
      · rintro ⟨t, ht⟩
        injection ht with h1 h2
        exact ⟨h1.symm, t, h2⟩

theorem mem_listTails (l t : List Char) : t ∈ listTails l ↔ ∃ u, l = u ++ t := by
  induction l with
  | nil =>
    simp only [listTails, List.mem_singleton]
    constructor
    · rintro rfl; exact ⟨[], rfl⟩
    · rintro ⟨u, hu⟩
      rcases List.append_eq_nil.mp hu.symm with ⟨_, h⟩
      exact h
  | cons a l ih =>
    simp only [listTails, List.mem_cons, ih]
    constructor
    · rintro (h | ⟨u, hu⟩)
      · exact ⟨[], by rw [h]; rfl⟩
      · exact ⟨a :: u, by rw [hu]; rfl⟩
    · rintro ⟨u, hu⟩
      cases u with
      | nil => left; simpa using hu.symm
      | cons x xs =>
        right
        injection hu with h1 h2
        exact ⟨xs, h2⟩

theorem strContains_iff (s pat : String) :
    strContains s pat = true ↔ ∃ u v, s.data = u ++ pat.data ++ v := by
  simp only [strContains, List.any_eq_true, listIsPre_iff, mem_listTails]
  constructor
  · rintro ⟨t, ⟨u, hu⟩, ⟨v, hv⟩⟩
    exact ⟨u, v, by rw [hu, hv, List.append_assoc]⟩
  · rintro ⟨u, v, h⟩
    exact ⟨pat.data ++ v, ⟨u, by rw [h, List.append_assoc]⟩, ⟨v, rfl⟩⟩

theorem pyLower_data (s : String) : (pyLower s).data = s.data.map pyCharLower := rfl

theorem article_matches_iff (t : String) :
    article_matches t = true ↔
      ∃ kw, kw ∈ KEYWORDS_KO ++ KEYWORDS_EN ∧
        strContains (pyLower t) (pyLower kw) = true := by
  simp only [article_matches, Bool.or_eq_true, List.any_eq_true, List.mem_append]
  constructor
  · rintro (⟨kw, hm, hc⟩ | ⟨kw, hm, hc⟩)
    · exact ⟨kw, Or.inl hm, hc⟩
    · exact ⟨kw, Or.inr hm, hc⟩
  · rintro ⟨kw, hm | hm, hc⟩
    · exact Or.inl ⟨kw, hm, hc⟩
    · exact Or.inr ⟨kw, hm, hc⟩

theorem strContains_pyLower {t u kw : String} (h : strContains t u = true)
    (hl : pyLower u = pyLower kw) :
    strContains (pyLower t) (pyLower kw) = true := by
  rcases (strContains_iff t u).mp h with ⟨a, b, hab⟩
  apply (strContains_iff _ _).mpr
  refine ⟨a.map pyCharLower, b.map pyCharLower, ?_⟩
  rw [pyLower_data, hab, ← hl, pyLower_data]
  simp [List.map_append]

theorem molegMatches_iff (title : String) :
    molegMatches title = true ↔
      ∃ kw, kw ∈ KEYWORDS_KO ∧ strContains title kw = true := by
  simp only [molegMatches, List.any_eq_true]

/-! ## Supporting lemmas: strip idempotence -/

theorem dropWhile_self (p : Char → Bool) (l : List Char) :
    (l.dropWhile p).dropWhile p = l.dropWhile p := by
  induction l with
  | nil => rfl
  | cons a t ih =>
    by_cases h : p a
    · simp [List.dropWhile_cons, h, ih]
    · simp [List.dropWhile_cons, h]

theorem dropWhile_head_not (p : Char → Bool) (l : List Char) :
    ∀ c t, l.dropWhile p = c :: t → p c = false := by
  induction l with
  | nil => intro c t h; simp at h
  | cons a l ih =>
    intro c t h
    rw [List.dropWhile_cons] at h
    by_cases ha : p a
    · rw [if_pos ha] at h; exact ih c t h
    · rw [if_neg ha] at h
      injection h with h1 _
      simp only [Bool.not_eq_true] at ha
      exact h1 ▸ ha

theorem stripList_no_lead (l : List Char) (c : Char) (t : List Char)
    (h : stripList l = c :: t) : isPySpace c = false := by
  have hsplit : (l.dropWhile isPySpace).reverse =
      (l.dropWhile isPySpace).reverse.takeWhile isPySpace ++
      (l.dropWhile isPySpace).reverse.dropWhile isPySpace :=
    (List.takeWhile_append_dropWhile isPySpace _).symm
  have hA : l.dropWhile isPySpace =
      ((l.dropWhile isPySpace).reverse.dropWhile isPySpace).reverse ++
      ((l.dropWhile isPySpace).reverse.takeWhile isPySpace).reverse := by
    have h2 := congrArg List.reverse hsplit
    rwa [List.reverse_reverse, List.reverse_append] at h2
  unfold stripList at h
  rw [h] at hA
  exact dropWhile_head_not isPySpace l c _ hA

theorem dropWhile_stripList (l : List Char) :
    (stripList l).dropWhile isPySpace = stripList l := by
  cases h : stripList l with
  | nil => rfl
  | cons c t =>
    have hc := stripList_no_lead l c t h
    rw [List.dropWhile_cons]
    simp [hc]

theorem stripList_idem (l : List Char) :
    stripList (stripList l) = stripList l := by
  show (((stripList l).dropWhile isPySpace).reverse.dropWhile
      isPySpace).reverse = stripList l
  rw [dropWhile_stripList]
  show ((((l.dropWhile isPySpace).reverse.dropWhile
      isPySpace).reverse).reverse.dropWhile isPySpace).reverse = stripList l
  rw [List.reverse_reverse, dropWhile_self]
  rfl

theorem pyStrip_idem (s : String) : pyStrip (pyStrip s) = pyStrip s :=
  congrArg String.mk (stripList_idem s.data)

/-! ## Supporting lemmas: digest and joins -/

theorem pyJoin_contains {l : String} {ls : List String} (sep : String)
    (h : l ∈ ls) : ∃ u v, (pyJoin sep ls).data = u ++ l.data ++ v := by
  induction ls with
  | nil => simp at h
  | cons x t ih =>
    cases t with
    | nil =>
      have hx : l = x := List.mem_singleton.mp h
      exact ⟨[], [], by simp [pyJoin, hx]⟩
    | cons y tt =>
      rcases List.mem_cons.mp h with hx | h2
      · refine ⟨[], (sep ++ pyJoin sep (y :: tt)).data, ?_⟩
        rw [hx]
        simp [pyJoin, strData_append, List.append_assoc]
      · obtain ⟨u, v, huv⟩ := ih h2
        refine ⟨x.data ++ sep.data ++ u, v, ?_⟩
        simp [pyJoin, strData_append, huv, List.append_assoc]

theorem strContains_of_mem_pyJoin {l : String} {ls : List String}
    (sep : String) (h : l ∈ ls) : strContains (pyJoin sep ls) l = true :=
  (strContains_iff _ _).mpr (pyJoin_contains sep h)

theorem mem_digestBlocks (a : Article) :
    ∀ (entries : List Article) (start : Nat), a ∈ entries →
      ∃ n, digestBlockHeader n a ∈ digestBlocks start entries := by
  intro entries
  induction entries with
  | nil => intro start h; simp at h
  | cons b rest ih =>
    intro start h
    rcases List.mem_cons.mp h with h | h
    · refine ⟨start, ?_⟩
      rw [h]
      simp [digestBlocks]
    · obtain ⟨n, hn⟩ := ih (start + 1) h
      refine ⟨n, ?_⟩
      simp only [digestBlocks]
      exact List.mem_append_right _ hn

/-! ## Supporting lemmas: split and order -/

theorem splitOnChar_ne (sep : Char) (l : List Char) :
    (splitOnChar sep l).isEmpty = false := by
  induction l with
  | nil => rfl
  | cons c rest ih =>
    simp only [splitOnChar]
    cases h : splitOnChar sep rest with
    | nil => rfl
    | cons hh tt =>
      by_cases hc : c == sep
      · simp [hc]
      · simp [hc]

theorem strLE_empty {s : String} (h : strLE s "" = true) : s = "" := by
  cases s with
  | mk d =>
    cases d with
    | nil => rfl
    | cons c t => simp [strLE, listLE] at h

/-! ## Supporting lemmas: store additions by the adapters -/

theorem processEntry_none (feed : FeedConfig) (tr : Translator)
    (st : Finset String × List Article) (e : FeedEntry)
    (h : entryIdentifier e = none) : processEntry feed tr st e = st := by
  unfold processEntry
  rw [h]

theorem processEntry_some (feed : FeedConfig) (tr : Translator)
    (st : Finset String × List Article) (e : FeedEntry) (ident : String)
    (h : entryIdentifier e = some ident) :
    processEntry feed tr st e =
      (if ident = "" then st
       else if ident ∈ st.1 then st
       else if article_matches (combinedText e) = true then
         (insert ident st.1,
          st.2 ++ [{ id := ident
                     source := feed.name
                     title := pyStrip (entryTitle e)
                     summary := pyStrip (entrySummary e)
                     translation := pyStrip (entryTranslation feed tr
                       (combinedText e))
                     link := e.link.getD ""
                     published := e.published.getD "" }])
       else st) := by
  unfold processEntry
  rw [h]

theorem mem_processEntry_fst (feed : FeedConfig) (tr : Translator)
    (st : Finset String × List Article) (e : FeedEntry) (x : String) :
    x ∈ (processEntry feed tr st e).1 ↔
      x ∈ st.1 ∨ (entryIdentifier e = some x ∧ x ≠ "" ∧
        article_matches (combinedText e) = true) := by
  cases hid : entryIdentifier e with
  | none => simp [processEntry_none feed tr st e hid]
  | some ident =>
    rw [processEntry_some feed tr st e ident hid]
    by_cases h1 : ident = ""
    · subst h1
      rw [if_pos rfl]
      constructor
      · exact Or.inl
      · rintro (h | ⟨hsome, hne, _⟩)
        · exact h
        · injection hsome with h2
          exact absurd h2.symm hne
    · rw [if_neg h1]
      by_cases h2 : ident ∈ st.1
      · rw [if_pos h2]
        constructor
        · exact Or.inl
        · rintro (h | ⟨hsome, _, _⟩)
          · exact h
          · injection hsome with h3
            rw [← h3]
            exact h2
      · rw [if_neg h2]
        by_cases h3 : article_matches (combinedText e) = true
        · rw [if_pos h3]
          simp only [Finset.mem_insert]
          constructor
          · rintro (h | h)
            · exact Or.inr ⟨by rw [h], by rw [h]; exact h1, h3⟩
            · exact Or.inl h
          · rintro (h | ⟨hsome, _, _⟩)
            · exact Or.inr h
            · injection hsome with h4
              exact Or.inl h4.symm
        · rw [if_neg h3]
          constructor
          · exact Or.inl
          · rintro (h | ⟨_, _, hm⟩)
            · exact h
            · exact absurd hm h3

theorem processEntry_ids (feed : FeedConfig) (tr : Translator)
    (st : Finset String × List Article) (e : FeedEntry)
    (h : ∀ a ∈ st.2, a.id ∈ st.1) :
    ∀ a ∈ (processEntry feed tr st e).2,
      a.id ∈ (processEntry feed tr st e).1 := by
  intro a ha
  cases hid : entryIdentifier e with
  | none =>
    rw [processEntry_none feed tr st e hid] at ha ⊢
    exact h a ha
  | some ident =>
    rw [processEntry_some feed tr st e ident hid] at ha ⊢
    by_cases h1 : ident = ""
    · rw [if_pos h1] at ha ⊢
      exact h a ha
    · rw [if_neg h1] at ha ⊢
      by_cases h2 : ident ∈ st.1
      · rw [if_pos h2] at ha ⊢
        exact h a ha
      · rw [if_neg h2] at ha ⊢
        by_cases h3 : article_matches (combinedText e) = true
        · rw [if_pos h3] at ha ⊢
          simp only [List.mem_append, List.mem_singleton] at ha
          rcases ha with ha | ha
          · exact Finset.mem_insert_of_mem (h a ha)
          · rw [ha]
            exact Finset.mem_insert_self _ _
        · rw [if_neg h3] at ha ⊢
          exact h a ha

theorem fetch_feed_fst_mem (feed : FeedConfig) (tr : Translator)
    (entries : List FeedEntry) :
    ∀ (st : Finset String × List Article) (x : String),
      x ∈ (entries.foldl (processEntry feed tr) st).1 ↔
        x ∈ st.1 ∨ ∃ e ∈ entries, entryIdentifier e = some x ∧ x ≠ "" ∧
          article_matches (combinedText e) = true := by
  induction entries with
  | nil => intro st x; simp
  | cons e rest ih =>
    intro st x
    rw [List.foldl_cons, ih, mem_processEntry_fst]
    constructor
    · rintro ((h | hP) | ⟨e2, he2, hP2⟩)
      · exact Or.inl h
      · exact Or.inr ⟨e, List.mem_cons_self e rest, hP⟩
      · exact Or.inr ⟨e2, List.mem_cons_of_mem e he2, hP2⟩
    · rintro (h | ⟨e2, he2, hP2⟩)
      · exact Or.inl (Or.inl h)
      · rcases List.mem_cons.mp he2 with h | h
        · exact Or.inl (Or.inr (h ▸ hP2))
        · exact Or.inr ⟨e2, h, hP2⟩

theorem fetch_feed_ids (feed : FeedConfig) (tr : Translator)
    (entries : List FeedEntry) :
    ∀ (st : Finset String × List Article), (∀ a ∈ st.2, a.id ∈ st.1) →
      ∀ a ∈ (entries.foldl (processEntry feed tr) st).2,
        a.id ∈ (entries.foldl (processEntry feed tr) st).1 := by
  induction entries with
  | nil => intro st h; simpa using h
  | cons e rest ih =>
    intro st h
    rw [List.foldl_cons]
    exact ih (processEntry feed tr st e) (processEntry_ids feed tr st e h)

theorem molegStep_none (st : Finset String × List Article) (it : MolegItem)
    (h : it.href = none) : molegStep st it = st := by
  unfold molegStep
  rw [h]

theorem molegStep_some (st : Finset String × List Article) (it : MolegItem)
    (href : String) (h : it.href = some href) :
    molegStep st it =
      (if href = "" then st
       else if molegFullLink href ∈ st.1 then st
       else if molegMatches it.title = true then
         (insert (molegFullLink href) st.1,
          st.2 ++ [{ id := molegFullLink href
                     source := "법제처 공공데이터"
                     title := it.title
                     summary := it.title
                     translation := it.title
                     link := molegFullLink href
                     published := "" }])
       else st) := by
  unfold molegStep
  rw [h]

theorem mem_molegStep_fst (st : Finset String × List Article) (it : MolegItem)
    (x : String) :
    x ∈ (molegStep st it).1 ↔
      x ∈ st.1 ∨ (∃ h, it.href = some h ∧ h ≠ "" ∧ molegFullLink h = x ∧
        molegMatches it.title = true) := by
  cases hh : it.href with
  | none => simp [molegStep_none st it hh]
  | some href =>
    rw [molegStep_some st it href hh]
    by_cases h1 : href = ""
    · subst h1
      rw [if_pos rfl]
      constructor
      · exact Or.inl
      · rintro (h | ⟨h2, hsome, hne, _, _⟩)
        · exact h
        · injection hsome with h3
          exact absurd h3.symm hne
    · rw [if_neg h1]
      by_cases h2 : molegFullLink href ∈ st.1
      · rw [if_pos h2]
        constructor
        · exact Or.inl
        · rintro (h | ⟨h3, hsome, _, hfull, _⟩)
          · exact h
          · injection hsome with h4
            rw [← hfull, ← h4]
            exact h2
      · rw [if_neg h2]
        by_cases h3 : molegMatches it.title = true
        · rw [if_pos h3]
          simp only [Finset.mem_insert]
          constructor
          · rintro (h | h)
            · exact Or.inr ⟨href, rfl, h1, h.symm, h3⟩
            · exact Or.inl h
          · rintro (h | ⟨h4, hsome, _, hfull, _⟩)
            · exact Or.inr h
            · injection hsome with h5
              exact Or.inl (by rw [← hfull, h5])
        · rw [if_neg h3]
          constructor
          · exact Or.inl
          · rintro (h | ⟨_, _, _, _, hm⟩)
            · exact h
            · exact absurd hm h3

theorem molegStep_ids (st : Finset String × List Article) (it : MolegItem)
    (h : ∀ a ∈ st.2, a.id ∈ st.1) :
    ∀ a ∈ (molegStep st it).2, a.id ∈ (molegStep st it).1 := by
  intro a ha
  cases hh : it.href with
  | none =>
    rw [molegStep_none st it hh] at ha ⊢
    exact h a ha
  | some href =>
    rw [molegStep_some st it href hh] at ha ⊢
    by_cases h1 : href = ""
    · rw [if_pos h1] at ha ⊢
      exact h a ha
    · rw [if_neg h1] at ha ⊢
      by_cases h2 : molegFullLink href ∈ st.1
      · rw [if_pos h2] at ha ⊢
        exact h a ha
      · rw [if_neg h2] at ha ⊢
        by_cases h3 : molegMatches it.title = true
        · rw [if_pos h3] at ha ⊢
          simp only [List.mem_append, List.mem_singleton] at ha
          rcases ha with ha | ha
          · exact Finset.mem_insert_of_mem (h a ha)
          · rw [ha]
            exact Finset.mem_insert_self _ _
        · rw [if_neg h3] at ha ⊢
          exact h a ha

theorem fetch_moleg_fst_mem (items : List MolegItem) :
    ∀ (st : Finset String × List Article) (x : String),
      x ∈ (items.foldl molegStep st).1 ↔
        x ∈ st.1 ∨ ∃ it ∈ items, ∃ h, it.href = some h ∧ h ≠ "" ∧
          molegFullLink h = x ∧ molegMatches it.title = true := by
  induction items with
  | nil => intro st x; simp
  | cons it rest ih =>
    intro st x
    rw [List.foldl_cons, ih, mem_molegStep_fst]
    constructor
    · rintro ((h | hP) | ⟨it2, hit2, hP2⟩)
      · exact Or.inl h
      · exact Or.inr ⟨it, List.mem_cons_self it rest, hP⟩
      · exact Or.inr ⟨it2, List.mem_cons_of_mem it hit2, hP2⟩
    · rintro (h | ⟨it2, hit2, hP2⟩)
      · exact Or.inl (Or.inl h)
      · rcases List.mem_cons.mp hit2 with h | h
        · exact Or.inl (Or.inr (h ▸ hP2))
        · exact Or.inr ⟨it2, h, hP2⟩

theorem fetch_moleg_ids (items : List MolegItem) :
    ∀ (st : Finset String × List Article), (∀ a ∈ st.2, a.id ∈ st.1) →
      ∀ a ∈ (items.foldl molegStep st).2,
        a.id ∈ (items.foldl molegStep st).1 := by
  induction items with
  | nil => intro st h; simpa using h
  | cons it rest ih =>
    intro st h
    rw [List.foldl_cons]
    exact ih (molegStep st it) (molegStep_ids st it h)

/-! ## Claim theorems -/

/-- Claim C1, code behavior at a failing input: for a feed configured with
the target language `"ko"`, the emitted record's `translation` field is the
stripped `title ++ "\n" ++ summary` combination, which differs from the
record's `summary` field whenever the title is non-empty — so
`translatedSummary` does not equal `summary` exactly, contrary to the claim
(and to the source's own comment that the translation "will be identical to
summary for Korean sources"). -/
theorem C1_code_behavior :
    (fetch_feed ⟨"KoSource", "url", "ko"⟩ (fun t => Except.ok t)
        [{ id := some "id1", title := some "공정거래법 개정",
           summary := some "본문 내용" }] ∅).2.map
      (fun a => (a.summary, a.translation)) =
      [("본문 내용", "공정거래법 개정\n본문 내용")] ∧
    ("공정거래법 개정\n본문 내용" : String) ≠ "본문 내용" := by
  constructor
  · decide
  · decide

/-- Claim C2: across any run state, an identifier ends up in the store one
of the adapters worked on iff it was already there or some entry (feed
case: with that non-empty resolved identifier and a keyword-matching
combined text; scrape case: with that non-empty href resolving to it and a
keyword-matching title) passes the filter; and every identifier of an
emitted record is in the resulting store.  Entries failing the keyword
filter therefore never add their identifier. -/
theorem C2_store_addition :
    (∀ (feed : FeedConfig) (tr : Translator) (entries : List FeedEntry)
        (p : Finset String),
      (∀ x, x ∈ (fetch_feed feed tr entries p).1 ↔
        x ∈ p ∨ ∃ e ∈ entries, entryIdentifier e = some x ∧ x ≠ "" ∧
          article_matches (combinedText e) = true) ∧
      (∀ a ∈ (fetch_feed feed tr entries p).2,
        a.id ∈ (fetch_feed feed tr entries p).1)) ∧
    (∀ (items : List MolegItem) (p : Finset String),
      (∀ x, x ∈ (fetch_moleg_public_data items p).1 ↔
        x ∈ p ∨ ∃ it ∈ items, ∃ h, it.href = some h ∧ h ≠ "" ∧
          molegFullLink h = x ∧ molegMatches it.title = true) ∧
      (∀ a ∈ (fetch_moleg_public_data items p).2,
        a.id ∈ (fetch_moleg_public_data items p).1)) := by
  constructor
  · intro feed tr entries p
    constructor
    · intro x
      exact fetch_feed_fst_mem feed tr entries (p, []) x
    · exact fetch_feed_ids feed tr entries (p, []) (by intro a ha; simp at ha)
  · intro items p
    constructor
    · intro x
      exact fetch_moleg_fst_mem items (p, []) x
    · exact fetch_moleg_ids items (p, []) (by intro a ha; simp at ha)

/-- Witness for C2 at concrete inputs: a matching scraped item's absolute
link and a matching feed entry's id are both added to the store. -/
theorem C2_store_addition_witness :
    "https://www.moleg.go.kr/a" ∈
      (fetch_moleg_public_data [⟨"공정거래법 공고", some "/a"⟩] ∅).1 ∧
    "id9" ∈ (fetch_feed ⟨"F", "u", "en"⟩ (fun t => Except.ok t)
      [{ id := some "id9", title := some "GDPR" }] ∅).1 :=
  ⟨((C2_store_addition.2 [⟨"공정거래법 공고", some "/a"⟩] ∅).1
      "https://www.moleg.go.kr/a").mpr
      (Or.inr ⟨⟨"공정거래법 공고", some "/a"⟩, by decide, "/a", rfl, by decide,
        by decide, by decide⟩),
   ((C2_store_addition.1 ⟨"F", "u", "en"⟩ (fun t => Except.ok t)
      [{ id := some "id9", title := some "GDPR" }] ∅).1 "id9").mpr
      (Or.inr ⟨{ id := some "id9", title := some "GDPR" }, by decide, by decide,
        by decide, by decide⟩)⟩

/-- Claim C4 counterexample: the scrape adapter's filter checks only the
Korean keyword list, case-sensitively, so a scraped title consisting of the
configured English keyword "GDPR" (which contains itself as a substring, in
its configured casing) is not matched and yields no record — refuting
"for every source adapter ... a text containing any configured keyword in
any letter-casing is matched". -/
theorem C4_counterexample :
    fetch_moleg_public_data [⟨"GDPR", some "/a"⟩] ∅ = (∅, []) ∧
    "GDPR" ∈ KEYWORDS_EN ∧
    strContains "GDPR" "GDPR" = true ∧
    molegMatches "GDPR" = false := by
  refine ⟨by decide, by decide, by decide, by decide⟩

/-- Claim C4 as amended: the feed adapter's `article_matches` is
case-insensitive substring containment over both keyword lists (a text
containing any keyword in any letter-casing matches, and a text containing
no keyword from either list under lower-cased comparison does not); the
scrape adapter instead tests case-sensitive containment of the Korean
keyword list only against the title — which coincides with case-insensitive
matching for that list, since no Korean keyword contains a cased letter. -/
theorem C4_keyword_matching :
    (∀ t, article_matches t = true ↔
      ∃ kw, kw ∈ KEYWORDS_KO ++ KEYWORDS_EN ∧
        strContains (pyLower t) (pyLower kw) = true) ∧
    (∀ t u kw, kw ∈ KEYWORDS_KO ++ KEYWORDS_EN → pyLower u = pyLower kw →
      strContains t u = true → article_matches t = true) ∧
    (∀ title, molegMatches title = true ↔
      ∃ kw, kw ∈ KEYWORDS_KO ∧ strContains title kw = true) ∧
    KEYWORDS_KO.all (fun kw => pyLower kw == kw) = true := by
  refine ⟨article_matches_iff, ?_, molegMatches_iff, by decide⟩
  intro t u kw hkw hl hc
  exact (article_matches_iff t).mpr ⟨kw, hkw, strContains_pyLower hc hl⟩

/-- Witness for C4 at concrete inputs: a lower-cased occurrence of the
keyword "GDPR" matches in the feed adapter, and a Korean keyword matches in
the scrape adapter's filter. -/
theorem C4_keyword_matching_witness :
    article_matches "Global gdpr update" = true ∧
    molegMatches "공정거래법 개정 안내" = true :=
  ⟨C4_keyword_matching.2.1 "Global gdpr update" "gdpr" "GDPR" (by decide)
      (by decide) (by decide),
   (C4_keyword_matching.2.2.1 "공정거래법 개정 안내").mpr
      ⟨"공정거래법", by decide, by decide⟩⟩

/-- Claim C8, code behavior at a failing input: with host, user and
password set but `EMAIL_TO` missing, `"".split(",")` yields `[""]`, a
non-empty (hence truthy) list, so `send_email` does not raise its
configuration error before transport even though the recipient list is
missing; indeed the computed recipient list is never empty for any
environment, so the recipients conjunct of the check can never fire. -/
theorem C8_code_behavior :
    sendEmailConfigError
      ⟨some "smtp.example.com", some "user", some "pw", none⟩ = false ∧
    emailRecipients
      ⟨some "smtp.example.com", some "user", some "pw", none⟩ = [""] ∧
    ∀ env : SmtpEnv, (emailRecipients env).isEmpty = false := by
  refine ⟨by decide, by decide, fun env => ?_⟩
  unfold emailRecipients pySplitComma
  have h := splitOnChar_ne ',' (env.EMAIL_TO.getD "").data
  cases hs : splitOnChar ',' (env.EMAIL_TO.getD "").data with
  | nil => rw [hs] at h; simp at h
  | cons a t => rfl

/-- Claim C3: in every run the store is persisted exactly once, the digest
is dispatched exactly once when the matched-record list is non-empty and
never when it is empty, and every dispatch event is preceded by a persist
event. -/
theorem C3_persist_before_dispatch (inp : RunInput) (ts : String) :
    (runEvents inp ts).countP Event.isPersist = 1 ∧
    (runEvents inp ts).countP Event.isDispatch =
      (if runAllEntries inp = [] then 0 else 1) ∧
    ∀ (k : Nat) (e : Event), (runEvents inp ts)[k]? = some e →
      Event.isDispatch e = true →
      ∃ (m : Nat) (e2 : Event), m < k ∧ (runEvents inp ts)[m]? = some e2 ∧
        Event.isPersist e2 = true := by
  unfold runEvents
  by_cases h : runAllEntries inp = []
  · rw [if_pos h, if_pos h]
    refine ⟨?_, ?_, ?_⟩
    · simp [List.countP_cons, Event.isPersist]
    · simp [List.countP_cons, Event.isDispatch]
    · intro k e hk hd
      cases k with
      | zero =>
        simp only [List.append_nil, List.getElem?_cons_zero,
          Option.some.injEq] at hk
        rw [← hk] at hd
        simp [Event.isDispatch] at hd
      | succ n => simp at hk
  · rw [if_neg h, if_neg h]
    refine ⟨?_, ?_, ?_⟩
    · simp [List.countP_cons, Event.isPersist, Event.isDispatch]
    · simp [List.countP_cons, Event.isPersist, Event.isDispatch]
    · intro k e hk hd
      cases k with
      | zero =>
        simp only [List.cons_append, List.nil_append, List.getElem?_cons_zero,
          Option.some.injEq] at hk
        rw [← hk] at hd
        simp [Event.isDispatch] at hd
      | succ n =>
        refine ⟨0, Event.persist (save_processed (runFinalProcessed inp)),
          Nat.succ_pos n, ?_, rfl⟩
        simp

/-- Witness for C3 at a concrete run with one matching entry: one persist,
one dispatch, and a persist strictly before index 1. -/
theorem C3_persist_before_dispatch_witness :
    (runEvents wInputC3 "ts").countP Event.isPersist = 1 ∧
    (runEvents wInputC3 "ts").countP Event.isDispatch = 1 ∧
    ∃ (m : Nat) (e2 : Event), m < 1 ∧ (runEvents wInputC3 "ts")[m]? = some e2 ∧
      Event.isPersist e2 = true := by
  have h := C3_persist_before_dispatch wInputC3 "ts"
  refine ⟨h.1, ?_, ?_⟩
  · have h2 := h.2.1
    rw [if_neg (by decide)] at h2
    exact h2
  · exact h.2.2 1 _ rfl rfl

/-- Claim C5: loading a missing identifier file yields the empty set;
saving writes every identifier exactly once, in ascending order of the
embedded Python string comparison; and load-after-save returns exactly the
set loaded first. -/
theorem C5_store_roundtrip :
    load_processed none = ∅ ∧
    (∀ s : Finset String,
      List.Sorted strLEP (save_processed s) ∧
      (save_processed s).Nodup ∧
      (save_processed s).toFinset = s) ∧
    (∀ file, load_processed (some (save_processed (load_processed file))) =
      load_processed file) := by
  refine ⟨rfl, fun s => ⟨Finset.sort_sorted strLEP s,
    Finset.sort_nodup strLEP s, Finset.sort_toFinset strLEP s⟩,
    fun file => ?_⟩
  have hfix : ∀ x ∈ load_processed file, pyStrip x = x := by
    intro x hx
    cases file with
    | none => simp [load_processed] at hx
    | some lines =>
      unfold load_processed at hx
      rw [List.mem_toFinset] at hx
      obtain ⟨y, _, hy⟩ := List.mem_map.mp hx
      rw [← hy]
      exact pyStrip_idem y
  show ((save_processed (load_processed file)).map pyStrip).toFinset =
    load_processed file
  have hmap : (save_processed (load_processed file)).map pyStrip =
      save_processed (load_processed file) := by
    have hcong : ∀ x ∈ save_processed (load_processed file),
        pyStrip x = id x := by
      intro x hx
      exact hfix x ((Finset.mem_sort strLEP).mp hx)
    rw [List.map_congr_left hcong, List.map_id]
  rw [hmap]
  exact Finset.sort_toFinset strLEP _

theorem fetchAllFeeds_append
    (f1 f2 : List (FeedConfig × Except String (List FeedEntry)))
    (tr : Translator) (st : Finset String × List Article) :
    fetchAllFeeds (f1 ++ f2) tr st =
      fetchAllFeeds f2 tr (fetchAllFeeds f1 tr st) := by
  unfold fetchAllFeeds
  rw [List.foldl_append]

theorem fetchAllFeeds_error_cons (cfg : FeedConfig) (msg : String)
    (feeds : List (FeedConfig × Except String (List FeedEntry)))
    (tr : Translator) (st : Finset String × List Article) :
    fetchAllFeeds ((cfg, Except.error msg) :: feeds) tr st =
      fetchAllFeeds feeds tr st := rfl

/-- Claim C6: a feed whose fetch raises contributes nothing — the gathered
state equals the state of the same run without that feed — and every
gathered record (from the other feeds and the scrape source alike) has its
numbered block-header line in the rendered digest. -/
theorem C6_failure_isolation
    (pre post : List (FeedConfig × Except String (List FeedEntry)))
    (cfg : FeedConfig) (msg : String) (tr : Translator)
    (mo : Except String (List MolegItem)) (file : Option (List String))
    (ts : String) :
    runGather ⟨pre ++ (cfg, Except.error msg) :: post, tr, mo, file⟩ =
      runGather ⟨pre ++ post, tr, mo, file⟩ ∧
    ∀ a ∈ runAllEntries ⟨pre ++ (cfg, Except.error msg) :: post, tr, mo, file⟩,
      ∃ n, digestBlockHeader n a ∈ digestLines ts
          (runSortedEntries
            ⟨pre ++ (cfg, Except.error msg) :: post, tr, mo, file⟩) ∧
        strContains (build_digest ts
            (runSortedEntries
              ⟨pre ++ (cfg, Except.error msg) :: post, tr, mo, file⟩))
          (digestBlockHeader n a) = true := by
  constructor
  · have hf : fetchAllFeeds (pre ++ (cfg, Except.error msg) :: post) tr
        (load_processed file, []) =
        fetchAllFeeds (pre ++ post) tr (load_processed file, []) := by
      rw [fetchAllFeeds_append, fetchAllFeeds_error_cons, ← fetchAllFeeds_append]
    cases mo with
    | error m =>
      simp only [runGather]
      rw [hf]
    | ok items =>
      simp only [runGather]
      rw [hf]
  · intro a ha
    have hsorted : a ∈ runSortedEntries
        ⟨pre ++ (cfg, Except.error msg) :: post, tr, mo, file⟩ :=
      ((List.perm_insertionSort pubGE _).mem_iff).mpr ha
    obtain ⟨n, hn⟩ := mem_digestBlocks a _ 1 hsorted
    have hline : digestBlockHeader n a ∈ digestLines ts
        (runSortedEntries
          ⟨pre ++ (cfg, Except.error msg) :: post, tr, mo, file⟩) :=
      List.mem_append_right _ hn
    exact ⟨n, hline, strContains_of_mem_pyJoin "\n" hline⟩

/-- Witness for C6 at a concrete run: one good feed, one raising feed, one
matching scraped item — the scraped record's header line appears in the
digest of the run containing the raising feed. -/
theorem C6_failure_isolation_witness :
    ∃ n, digestBlockHeader n wArtC6 ∈
        digestLines "ts" (runSortedEntries wInputC6) ∧
      strContains (build_digest "ts" (runSortedEntries wInputC6))
        (digestBlockHeader n wArtC6) = true :=
  (C6_failure_isolation [wFeedOkC6] [] ⟨"B", "u", "en"⟩ "boom"
    (fun t => Except.ok ("T " ++ t))
    (Except.ok [⟨"공정거래법 공고", some "/x"⟩]) none "ts").2
    wArtC6 (by decide)

/-- Claim C7: for a non-target-language feed, a translator failure is
contained — the matching entry is still emitted, with the error placeholder
as its translation, and its identifier is still added to the store. -/
theorem C7_translation_containment (feed : FeedConfig) (tr : Translator)
    (st : Finset String × List Article) (e : FeedEntry) (ident msg : String)
    (hlang : feed.language ≠ "ko")
    (hid : entryIdentifier e = some ident) (hne : ident ≠ "")
    (hnew : ident ∉ st.1)
    (hmatch : article_matches (combinedText e) = true)
    (htr : tr (combinedText e) = Except.error msg) :
    processEntry feed tr st e =
      (insert ident st.1,
       st.2 ++ [{ id := ident
                  source := feed.name
                  title := pyStrip (entryTitle e)
                  summary := pyStrip (entrySummary e)
                  translation := pyStrip (translationPlaceholder msg)
                  link := e.link.getD ""
                  published := e.published.getD "" }]) ∧
    ident ∈ (processEntry feed tr st e).1 := by
  have hstep : processEntry feed tr st e =
      (insert ident st.1,
       st.2 ++ [{ id := ident
                  source := feed.name
                  title := pyStrip (entryTitle e)
                  summary := pyStrip (entrySummary e)
                  translation := pyStrip (translationPlaceholder msg)
                  link := e.link.getD ""
                  published := e.published.getD "" }]) := by
    rw [processEntry_some feed tr st e ident hid, if_neg hne, if_neg hnew,
      if_pos hmatch]
    unfold entryTranslation
    rw [if_pos hlang, htr]
  refine ⟨hstep, ?_⟩
  rw [hstep]
  exact Finset.mem_insert_self _ _

/-- Witness for C7 at a concrete entry whose translator raises "quota". -/
theorem C7_translation_containment_witness :
    processEntry ⟨"E", "u", "en"⟩ (fun _ => Except.error "quota") (∅, [])
        { id := some "x1", title := some "GDPR news" } =
      (insert "x1" ∅,
       [{ id := "x1", source := "E", title := "GDPR news", summary := "",
          translation := "(번역 오류: quota)", link := "", published := "" }]) ∧
    "x1" ∈ (processEntry ⟨"E", "u", "en"⟩ (fun _ => Except.error "quota")
        (∅, []) { id := some "x1", title := some "GDPR news" }).1 :=
  C7_translation_containment ⟨"E", "u", "en"⟩ (fun _ => Except.error "quota")
    (∅, []) { id := some "x1", title := some "GDPR news" } "x1" "quota"
    (by decide) (by decide) (by decide) (by decide) (by decide) rfl

/-- Claim C9: the list rendered into the digest is sorted descending by the
raw `published` string (plain code-point comparison); consequently a record
with empty `published` is never followed by one with non-empty `published`;
and the dispatched digest body is built from exactly that sorted list. -/
theorem C9_digest_ordering (inp : RunInput) (ts : String) :
    List.Sorted pubGE (runSortedEntries inp) ∧
    (∀ i j (hi : i < (runSortedEntries inp).length)
        (hj : j < (runSortedEntries inp).length), i < j →
      ((runSortedEntries inp).get ⟨i, hi⟩).published = "" →
      ((runSortedEntries inp).get ⟨j, hj⟩).published = "") ∧
    (runAllEntries inp ≠ [] →
      runEvents inp ts =
        [Event.persist (save_processed (runFinalProcessed inp)),
         Event.dispatch digestSubject (build_digest ts (runSortedEntries inp))]) := by
  have hs : List.Sorted pubGE (runSortedEntries inp) :=
    List.sorted_insertionSort pubGE (runAllEntries inp)
  refine ⟨hs, ?_, ?_⟩
  · intro i j hi hj hij hempty
    have h := List.Sorted.rel_get_of_lt hs
      (a := ⟨i, hi⟩) (b := ⟨j, hj⟩) (Fin.mk_lt_mk.mpr hij)
    have h2 : strLE ((runSortedEntries inp).get ⟨j, hj⟩).published "" = true := by
      rw [← hempty]
      exact h
    exact strLE_empty h2
  · intro h
    unfold runEvents
    rw [if_neg h]
    rfl

/-- Witness for C9 at a concrete run with two empty-dated records. -/
theorem C9_digest_ordering_witness :
    ((runSortedEntries wInputC9).get ⟨1, by decide⟩).published = "" ∧
    runEvents wInputC9 "ts" =
      [Event.persist (save_processed (runFinalProcessed wInputC9)),
       Event.dispatch digestSubject
         (build_digest "ts" (runSortedEntries wInputC9))] :=
  ⟨(C9_digest_ordering wInputC9 "ts").2.1 0 1 (by decide) (by decide)
      (by decide) (by decide),
   (C9_digest_ordering wInputC9 "ts").2.2 (by decide)⟩

/-- Claim C10: an entry whose id, guid and link are each absent or empty is
skipped entirely (no record, store unchanged); and a present-but-empty id
falls through to `guid`-then-`link` rather than being used. -/
theorem C10_identifier_fallback (feed : FeedConfig) (tr : Translator)
    (st : Finset String × List Article) (e : FeedEntry) :
    ((e.id = none ∨ e.id = some "") → (e.guid = none ∨ e.guid = some "") →
      (e.link = none ∨ e.link = some "") → processEntry feed tr st e = st) ∧
    (e.id = some "" → entryIdentifier e = pyOrStr e.guid e.link) := by
  constructor
  · intro h1 h2 h3
    have hid : entryIdentifier e = none ∨ entryIdentifier e = some "" := by
      unfold entryIdentifier pyOrStr
      rcases h1 with h | h <;> rcases h2 with g | g <;> rcases h3 with l | l <;>
        simp [h, g, l, optTruthy]
    rcases hid with h | h
    · exact processEntry_none feed tr st e h
    · rw [processEntry_some feed tr st e "" h, if_pos rfl]
  · intro h
    unfold entryIdentifier
    rw [h]
    show pyOrStr (pyOrStr (some "") e.guid) e.link = pyOrStr e.guid e.link
    have hg : pyOrStr (some "") e.guid = e.guid := by
      unfold pyOrStr optTruthy
      simp
    rw [hg]

/-- Witness for C10: an entry with empty-or-missing id/guid/link yields no
record and leaves the state unchanged; an entry with empty id but a guid
falls through past the id. -/
theorem C10_identifier_fallback_witness :
    processEntry ⟨"F", "u", "en"⟩ (fun t => Except.ok t) (∅, [])
      { id := some "", guid := none, link := some "" } = (∅, []) ∧
    entryIdentifier { id := some "", guid := some "g1", link := some "l1" } =
      pyOrStr (some "g1") (some "l1") :=
  ⟨(C10_identifier_fallback ⟨"F", "u", "en"⟩ (fun t => Except.ok t) (∅, [])
      { id := some "", guid := none, link := some "" }).1
      (Or.inr rfl) (Or.inl rfl) (Or.inr rfl),
   (C10_identifier_fallback ⟨"F", "u", "en"⟩ (fun t => Except.ok t) (∅, [])
      { id := some "", guid := some "g1", link := some "l1" }).2 rfl⟩
